import Mathlib

/-!
# Verification of the solar power plotter core (src/src/main.rs)

A shallow embedding of the core of the `plot-power` program: the record
parser (`Record::new`), the job dispatcher (`Dispatcher`), the windowed
averager (`take_avg` and the averaging loop in `main`), and the per-day
segmentation loop in `main`, together with theorems checking the
natural-language specification against this embedding.

Modelling conventions:
* Rust `i64`/`usize` become `Int`/`Nat`; `i64 /` is `Int.tdiv` (truncation
  toward zero) and `usize` arithmetic never overflows at the sizes involved.
* Rust `f32`/`f64` values are idealized as exact rationals plus a NaN
  element (`F32` below); rounding is ignored, but the one float behaviour
  the parser depends on — every ordered comparison involving NaN is false —
  is kept.
* Code that panics (out-of-bounds indexing) returns `none`.
-/

/-- Idealized IEEE float value (used for both Rust `f32` and `f64`): either
an exact numeric value, modelled as a rational with rounding ignored, or
NaN. Ordered comparisons involving NaN are false, as in IEEE semantics. -/
inductive F32 where
  | num (q : ℚ)
  | nan
deriving DecidableEq

/-- Rust `a < b` on floats: false whenever either operand is NaN. -/
def F32.lt : F32 → F32 → Bool
  | .num a, .num b => decide (a < b)
  | _, _ => false

/-- Rust `a > b` on floats: false whenever either operand is NaN. -/
def F32.gt : F32 → F32 → Bool
  | .num a, .num b => decide (b < a)
  | _, _ => false

/-- Rust float addition; NaN is absorbing. -/
def F32.add : F32 → F32 → F32
  | .num a, .num b => .num (a + b)
  | _, _ => .nan

/-- Rust float division; NaN is absorbing. The divisors appearing in the
program are the nonzero literals produced by `take_avg`'s guard, so the
`q / 0` corner never arises. -/
def F32.div : F32 → F32 → F32
  | .num a, .num b => .num (a / b)
  | _, _ => .nan

/-- One sample, `struct Record` of src/src/main.rs. -/
structure Record where
  timestamp_ms : Int
  current : F32
  voltage : F32
deriving DecidableEq

/-- Truncation of a rational toward zero, the behaviour of Rust's
`as i64` cast on a finite float. -/
def ratTrunc (q : ℚ) : Int := q.num.tdiv (q.den : Int)

/-- Rust `(x * 1000.0) as i64` applied to the parsed timestamp field.
A NaN float casts to 0 under `as i64`. Saturation of the cast at the i64
range is omitted: any value large enough to saturate fails the
`≤ 2_000_000_000_000` bound check either way, so acceptance is unaffected. -/
def msOfTimestampField : F32 → Int
  | .num q => ratTrunc (q * 1000)
  | .nan => 0

/-- `Record::new` of src/src/main.rs. A line is modelled after
`line.split(";")`: `values` lists the fields, each abstracted to the result
of Rust `str::parse` on it (`none` = parse error, `some v` = the parsed
numeric value, possibly NaN). The source rejects unless the split yields
exactly 3 fields, all three parse, and none of the negated range
comparisons fires. -/
def Record.new (values : List (Option F32)) : Option Record :=
  match values with
  | [some ts_field, some current, some voltage] =>
    let timestamp_ms := msOfTimestampField ts_field
    if timestamp_ms < 1000000000000 ∨ timestamp_ms > 2000000000000 then none
    else if F32.lt current (.num (-15)) || F32.gt current (.num 15) then none
    else if F32.lt voltage (.num 5) || F32.gt voltage (.num 16) then none
    else some { timestamp_ms := timestamp_ms, current := current, voltage := voltage }
  | _ => none

/-- `struct Dispatcher` of src/src/main.rs: the file list, the job cursor
and the shared accumulation buffer. -/
structure Dispatcher where
  files : List String
  job_index : Nat
  recs : List Record
deriving DecidableEq

/-- `Dispatcher::get_next_job`: under the lock, return `none` when the
cursor is past the file list, otherwise hand out the file at the cursor
and advance the cursor. The pair returns the updated dispatcher state. -/
def Dispatcher.get_next_job (d : Dispatcher) : Option String × Dispatcher :=
  if h : d.job_index ≥ d.files.length then (none, d)
  else (some (d.files.get ⟨d.job_index, by omega⟩), { d with job_index := d.job_index + 1 })

/-- `Dispatcher::append_data`: extend the shared buffer with a worker's
private batch. -/
def Dispatcher.append_data (d : Dispatcher) (data : List Record) : Dispatcher :=
  { d with recs := d.recs ++ data }

/-- `k` successive calls to `get_next_job` on one dispatcher, collecting
the answers in order. Used to state exactly-once delivery. -/
def Dispatcher.runJobs (d : Dispatcher) : Nat → List (Option String) × Dispatcher
  | 0 => ([], d)
  | k + 1 =>
    let step := d.get_next_job
    let rest := step.2.runJobs k
    (step.1 :: rest.1, rest.2)

/-- The run of records consumed by one window of `take_avg`: starting at
`start_index`, the source's for loop breaks at the first record with
`timestamp_ms - start_time >= delta_time_ms` and consumes everything
before it. -/
def windowOf (recs : List Record) (start_index : Nat) (start_time delta_time_ms : Int) :
    List Record :=
  (recs.drop start_index).takeWhile fun rec =>
    decide (rec.timestamp_ms - start_time < delta_time_ms)

/-- `take_avg` of src/src/main.rs. `recs[start_index]` panics in Rust when
the index is out of bounds; that is modelled by `none`. Otherwise the
result is the advanced cursor and the averaged record, whose means divide
the accumulated sums by the count, or by 1 when the count is zero. -/
def take_avg (recs : List Record) (start_index : Nat) (delta_time_ms : Int) :
    Option (Nat × Record) :=
  match recs[start_index]? with
  | none => none
  | some first =>
    let start_time := first.timestamp_ms
    let window := windowOf recs start_index start_time delta_time_ms
    let avg_index : Int := window.length
    let rec_index : Nat := start_index + window.length
    let current_acc := window.foldl (fun acc rec => acc.add rec.current) (F32.num 0)
    let voltage_acc := window.foldl (fun acc rec => acc.add rec.voltage) (F32.num 0)
    let divisor := if avg_index > 0 then F32.num (avg_index : ℚ) else F32.num 1
    some (rec_index,
      { timestamp_ms := start_time,
        current := current_acc.div divisor,
        voltage := voltage_acc.div divisor })

/-- The averaging loop of `main`: repeatedly call `take_avg`, push the
bucket, and break once `next_index + 20 >= recs.len()`. The Rust `loop`
has no iteration bound; `fuel` makes termination explicit (`recs.length`
iterations suffice for a positive window), and `none` models either fuel
exhaustion or the out-of-bounds panic inside `take_avg`. -/
def runAvg (recs : List Record) (delta_time_ms : Int) :
    Nat → Nat → List Record → Option (List Record)
  | 0, _, _ => none
  | fuel + 1, next_index, avg_recs =>
    match take_avg recs next_index delta_time_ms with
    | none => none
    | some (n, bucket) =>
      if n + 20 ≥ recs.length then some (avg_recs ++ [bucket])
      else runAvg recs delta_time_ms fuel n (avg_recs ++ [bucket])

/-- Day of month (1..31) of `days` days since 1970-01-01 in the proleptic
Gregorian calendar — the value chrono's `Datelike::day` returns. This is
the standard civil-from-days computation; all divisions are floor
divisions (`Int./` is Euclidean division, which agrees with floor for the
positive divisors used here). -/
def dayOfMonthFromDays (days : Int) : Int :=
  let z := days + 719468
  let era := z / 146097
  let doe := z - era * 146097
  let yoe := (doe - doe / 1460 + doe / 36524 - doe / 146096) / 365
  let doy := doe - (365 * yoe + yoe / 4 - yoe / 100)
  let mp := (5 * doy + 2) / 153
  doy - (153 * mp + 2) / 5 + 1

/-- The day-of-month the plotting loop computes for a record:
`NaiveDateTime::from_timestamp(rec.timestamp_ms / 1000, 0)` (Rust i64
division truncates toward zero), shifted by the fixed offset in seconds
(`FixedOffset::east(tz * 3600).from_utc_datetime`), then `.day()`.
chrono splits seconds into days by floor division. -/
def dayNum (offset_secs ts_ms : Int) : Int :=
  dayOfMonthFromDays ((ts_ms.tdiv 1000 + offset_secs) / 86400)

/-- One outer pass plus the rest of the per-day plotting loop of `main`,
reduced to the grouping it performs: starting at the cursor, `start_day`
is the day-of-month of the first record, the inner for loop consumes
records while their day-of-month equals `start_day`, and the cursor
advances past them; each pass yields one plotted segment. The Rust loop
terminates because each pass consumes at least the first record; `fuel`
makes that explicit (the list length is always enough, see
`daySegments`). -/
def daySegmentsGo (offset_secs : Int) : Nat → List Record → List (List Record)
  | _, [] => []
  | 0, _ :: _ => []
  | fuel + 1, r :: rs =>
    let start_day := dayNum offset_secs r.timestamp_ms
    let seg := (r :: rs).takeWhile fun rec => decide (dayNum offset_secs rec.timestamp_ms = start_day)
    let rest := (r :: rs).dropWhile fun rec => decide (dayNum offset_secs rec.timestamp_ms = start_day)
    seg :: daySegmentsGo offset_secs fuel rest

/-- The per-day plotting loop of `main` over the full averaged series. -/
def daySegments (offset_secs : Int) (recs : List Record) : List (List Record) :=
  daySegmentsGo offset_secs recs.length recs

/-!
## Interleaving model of the worker threads

Each spawned thread of `main` loops: lock the dispatcher and call
`get_next_job`; on `none` terminate, otherwise unlock, run `parse_file`
on the job (no shared state), then lock again and `append_data` the
private batch. The mutex makes the two locked sections atomic, so a run
of the pool is exactly an interleaving of these three atomic actions,
modelled by the step relation below. `parse_file` reads the filesystem;
for a fixed set of input files it is a pure function of the file name,
abstracted as the parameter `P`. -/

/-- Where one worker thread stands between atomic actions: about to call
`get_next_job`, holding a parsed private batch it has yet to submit, or
terminated. -/
inductive WorkerState where
  | idle
  | pending (batch : List Record)
  | done
deriving DecidableEq

/-- The shared dispatcher plus every worker's private position. -/
structure PoolConfig where
  disp : Dispatcher
  workers : List WorkerState
deriving DecidableEq

/-- One atomic action of one worker thread, for a fixed parse function
`P`. -/
inductive WorkerStep (P : String → List Record) : PoolConfig → PoolConfig → Prop where
  | take (c : PoolConfig) (i : Nat) (file : String) (d' : Dispatcher)
      (hw : c.workers[i]? = some .idle)
      (hj : c.disp.get_next_job = (some file, d')) :
      WorkerStep P c ⟨d', c.workers.set i (.pending (P file))⟩
  | finish (c : PoolConfig) (i : Nat) (d' : Dispatcher)
      (hw : c.workers[i]? = some .idle)
      (hj : c.disp.get_next_job = (none, d')) :
      WorkerStep P c ⟨d', c.workers.set i .done⟩
  | submit (c : PoolConfig) (i : Nat) (batch : List Record)
      (hw : c.workers[i]? = some (.pending batch)) :
      WorkerStep P c ⟨c.disp.append_data batch, c.workers.set i .idle⟩

/-- The pool as `main` starts it: fresh dispatcher over `files`, empty
buffer, `w` workers about to request their first job. -/
def initPool (files : List String) (w : Nat) : PoolConfig :=
  ⟨⟨files, 0, []⟩, List.replicate w .idle⟩

/-- The records a worker holds privately, as a multiset. -/
def WorkerState.load : WorkerState → Multiset Record
  | .pending batch => ↑batch
  | _ => 0

/-- All records held privately by workers, as a multiset. -/
def pendingLoad (ws : List WorkerState) : Multiset Record :=
  (ws.map WorkerState.load).sum

/-!
## Helper lemmas
-/

/-- The record right after a `takeWhile` run fails the scan predicate:
this is where the for loop of `take_avg` (and of the plotting loop)
breaks. -/
theorem takeWhile_stop {α : Type _} (p : α → Bool) (s : List α)
    (h : (s.takeWhile p).length < s.length) :
    p (s.get ⟨(s.takeWhile p).length, h⟩) = false := by
  have hsplit : s.takeWhile p ++ s.dropWhile p = s := List.takeWhile_append_dropWhile p s
  have hd : s.dropWhile p ≠ [] := by
    intro hnil
    have hlen := congrArg List.length hsplit
    rw [List.length_append, hnil] at hlen
    simp at hlen
    omega
  have hgoal : s.get ⟨(s.takeWhile p).length, h⟩ = (s.dropWhile p).head hd := by
    rw [List.get_eq_getElem]
    rw [List.getElem_of_eq hsplit.symm]
    rw [List.getElem_append_right (le_refl _)]
    simp [List.head_eq_getElem]
  rw [hgoal]
  exact List.head_dropWhile_not p s hd

/-- Left fold of float additions over records whose projected fields are
all numeric: the accumulator stays numeric and collects the exact sum. -/
theorem foldl_add_eq_sum (f : Record → F32) :
    ∀ (w : List Record) (qs : List ℚ) (a : ℚ),
      w.map f = qs.map F32.num →
      w.foldl (fun (acc : F32) rec => acc.add (f rec)) (F32.num a) = F32.num (a + qs.sum) := by
  intro w
  induction w with
  | nil =>
    intro qs a h
    cases qs with
    | nil => simp
    | cons q qs => simp at h
  | cons r w ih =>
    intro qs a h
    cases qs with
    | nil => simp at h
    | cons q qs =>
      simp only [List.map_cons, List.cons.injEq] at h
      obtain ⟨h1, h2⟩ := h
      rw [List.foldl_cons]
      have hstep : (F32.num a).add (f r) = F32.num (a + q) := by rw [h1]; rfl
      rw [hstep, ih qs (a + q) h2, List.sum_cons]
      exact congrArg F32.num (by ring)

/-- `take_avg` at a valid cursor: the result exists, the cursor advances
by the window length, and the bucket carries the cursor record's
timestamp and the guarded quotients of the accumulated sums. -/
theorem take_avg_spec (recs : List Record) (i : Nat) (delta : Int)
    (h : i < recs.length) :
    take_avg recs i delta =
      some (i + (windowOf recs i recs[i].timestamp_ms delta).length,
        { timestamp_ms := recs[i].timestamp_ms,
          current :=
            ((windowOf recs i recs[i].timestamp_ms delta).foldl
                (fun (acc : F32) rec => acc.add rec.current) (F32.num 0)).div
              (if ((windowOf recs i recs[i].timestamp_ms delta).length : Int) > 0
                then F32.num (((windowOf recs i recs[i].timestamp_ms delta).length : Int) : ℚ)
                else F32.num 1),
          voltage :=
            ((windowOf recs i recs[i].timestamp_ms delta).foldl
                (fun (acc : F32) rec => acc.add rec.voltage) (F32.num 0)).div
              (if ((windowOf recs i recs[i].timestamp_ms delta).length : Int) > 0
                then F32.num (((windowOf recs i recs[i].timestamp_ms delta).length : Int) : ℚ)
                else F32.num 1) }) := by
  unfold take_avg
  rw [List.getElem?_eq_getElem h]

/-- With a positive window length the scanned window always contains the
cursor record, so the cursor strictly advances. -/
theorem window_nonempty (recs : List Record) (i : Nat) (delta : Int)
    (h : i < recs.length) (hδ : 0 < delta) :
    1 ≤ (windowOf recs i recs[i].timestamp_ms delta).length := by
  unfold windowOf
  rw [List.drop_eq_getElem_cons h, List.takeWhile_cons]
  have hcond : (recs[i].timestamp_ms - recs[i].timestamp_ms < delta) := by omega
  simp [hcond, hδ]

/-- Inversion of a successful `get_next_job`: the cursor was in range,
the returned file is the one at the cursor, and only the cursor moved. -/
theorem get_next_job_some {d : Dispatcher} {f : String} {d' : Dispatcher}
    (h : d.get_next_job = (some f, d')) :
    ∃ hj : d.job_index < d.files.length,
      f = d.files.get ⟨d.job_index, hj⟩ ∧
      d' = { d with job_index := d.job_index + 1 } := by
  unfold Dispatcher.get_next_job at h
  split at h
  · exact absurd (congrArg Prod.fst h) (by simp)
  · next hlt =>
    simp only [Prod.mk.injEq, Option.some.injEq] at h
    exact ⟨by omega, h.1.symm, h.2.symm⟩

/-- Inversion of an exhausted `get_next_job`: the cursor was past the
file list and the state is untouched. -/
theorem get_next_job_none {d d' : Dispatcher}
    (h : d.get_next_job = (none, d')) :
    d.files.length ≤ d.job_index ∧ d' = d := by
  unfold Dispatcher.get_next_job at h
  split at h
  · next hge =>
    simp only [Prod.mk.injEq] at h
    exact ⟨by omega, h.2.symm⟩
  · exact absurd (congrArg Prod.fst h) (by simp)

/-- With a positive window length, `take_avg` at a valid cursor succeeds
and strictly advances the cursor. -/
theorem take_avg_progress (recs : List Record) (i : Nat) (delta : Int)
    (hi : i < recs.length) (hδ : 0 < delta) :
    ∃ n bucket, take_avg recs i delta = some (n, bucket) ∧ i + 1 ≤ n ∧
      n = i + (windowOf recs i recs[i].timestamp_ms delta).length ∧
      bucket.timestamp_ms = recs[i].timestamp_ms := by
  refine ⟨_, _, take_avg_spec recs i delta hi, ?_, rfl, rfl⟩
  have := window_nonempty recs i delta hi hδ
  omega

/-- The answers of `k` successive `get_next_job` calls starting from any
cursor position: the remaining files in order, each exactly once, then
`none` for every call beyond the end. -/
theorem runJobs_fst (files : List String) (recs0 : List Record) :
    ∀ (k j : Nat),
      ((Dispatcher.mk files j recs0).runJobs k).1 =
        ((files.drop j).take k).map some ++
          List.replicate (k - (files.length - j)) none := by
  intro k
  induction k with
  | zero => intro j; simp [Dispatcher.runJobs]
  | succ k ih =>
    intro j
    by_cases hj : j ≥ files.length
    · have hstep : (Dispatcher.mk files j recs0).get_next_job =
          (none, Dispatcher.mk files j recs0) := by
        unfold Dispatcher.get_next_job
        rw [dif_pos hj]
      simp only [Dispatcher.runJobs, hstep]
      rw [ih j]
      rw [List.drop_eq_nil_of_le hj]
      have h0 : files.length - j = 0 := by omega
      simp [h0, List.replicate_succ]
    · push_neg at hj
      have hstep : (Dispatcher.mk files j recs0).get_next_job =
          (some files[j], Dispatcher.mk files (j + 1) recs0) := by
        unfold Dispatcher.get_next_job
        rw [dif_neg (not_le.mpr hj)]
        rfl
      simp only [Dispatcher.runJobs, hstep]
      rw [ih (j + 1)]
      rw [List.drop_eq_getElem_cons hj, List.take_succ_cons, List.map_cons]
      rw [show k + 1 - (files.length - j) = k - (files.length - (j + 1)) by omega]
      rfl

/-- Termination and productivity of the averaging loop: with a positive
window and an in-range cursor, `recs.length - next` units of fuel are
enough for the Rust loop to stop, and it appends at least one more
bucket. -/
theorem runAvg_total (recs : List Record) (delta : Int) (hδ : 0 < delta) :
    ∀ (fuel next : Nat) (acc : List Record),
      next < recs.length → recs.length - next ≤ fuel →
      ∃ out, runAvg recs delta fuel next acc = some out ∧
        acc.length + 1 ≤ out.length := by
  intro fuel
  induction fuel with
  | zero => intro next acc h1 h2; omega
  | succ fuel ih =>
    intro next acc h1 h2
    obtain ⟨n, b, hta, hge, -, -⟩ := take_avg_progress recs next delta h1 hδ
    by_cases hstop : n + 20 ≥ recs.length
    · refine ⟨acc ++ [b], ?_, by simp⟩
      simp only [runAvg, hta]
      rw [if_pos hstop]
    · have hn : n < recs.length := by omega
      obtain ⟨out, hrun, hlen⟩ := ih n (acc ++ [b]) hn (by omega)
      refine ⟨out, ?_, by simp at hlen; omega⟩
      simp only [runAvg, hta]
      rw [if_neg hstop]
      exact hrun

/-!
## The claims
-/

/-- C1 (confirmed): starting from cursor 0 over any file list, `k` calls
to `get_next_job` answer with the first `k` files in order — every file
delivered exactly once, none skipped, none twice — followed by `none` for
each call past the end; moreover `get_next_job` never decreases the
cursor, and once the cursor is past the end of the file list every
further call returns `none` and leaves the state unchanged. -/
theorem dispatcher_exactly_once :
    (∀ (files : List String) (recs0 : List Record) (k : Nat),
        ((Dispatcher.mk files 0 recs0).runJobs k).1 =
          (files.take k).map some ++ List.replicate (k - files.length) none) ∧
    (∀ d : Dispatcher, d.job_index ≤ d.get_next_job.2.job_index) ∧
    (∀ d : Dispatcher, d.files.length ≤ d.job_index → d.get_next_job = (none, d)) := by
  refine ⟨?_, ?_, ?_⟩
  · intro files recs0 k
    have h := runJobs_fst files recs0 k 0
    simpa using h
  · intro d
    unfold Dispatcher.get_next_job
    split
    · exact le_refl _
    · simp
  · intro d hd
    unfold Dispatcher.get_next_job
    rw [dif_pos hd]

/-- Witness for `dispatcher_exactly_once` at a concrete past-the-end
dispatcher state. -/
theorem dispatcher_exactly_once_witness :
    (Dispatcher.mk ["a"] 5 []).get_next_job = (none, Dispatcher.mk ["a"] 5 []) :=
  dispatcher_exactly_once.2.2 (Dispatcher.mk ["a"] 5 []) (by decide)

/-- C4 (code bug): on an empty record sequence the averaging loop of
`main` does not produce an empty output — its very first `take_avg` call
indexes `recs[0]` out of bounds (a Rust panic, modelled as `none`),
whatever the window length and the fuel. -/
theorem avg_loop_empty_input_panics :
    (∀ (delta : Int) (fuel : Nat) (acc : List Record),
        runAvg [] delta (fuel + 1) 0 acc = none) ∧
    take_avg ([] : List Record) 0 300000 = none := by
  constructor
  · intro delta fuel acc
    simp [runAvg, take_avg]
  · rfl

/-- C10 (confirmed): a 3-field line whose current field parses to NaN —
the model of `1500000000;NaN;12.0` — is accepted and stored with a NaN
current, because both negated bound comparisons are false on NaN. -/
theorem record_new_accepts_nan_current :
    Record.new [some (F32.num 1500000000), some F32.nan, some (F32.num 12)] =
      some { timestamp_ms := 1500000000000, current := F32.nan, voltage := F32.num 12 } := by
  norm_num [Record.new, msOfTimestampField, ratTrunc, F32.lt, F32.gt]

/-- C8 counterexample: with `delta_time_ms = 0` and the cursor on an
existing record, `take_avg` consumes no record at all — the returned
cursor is still 0, and the guard's zero-count branch produces 0-valued
means instead of an average over at least one record. -/
theorem take_avg_zero_window_cex :
    take_avg [{ timestamp_ms := 0, current := F32.num 1, voltage := F32.num 6 }] 0 0 =
      some (0, { timestamp_ms := 0, current := F32.num 0, voltage := F32.num 0 }) := by
  norm_num [take_avg, windowOf, F32.div, F32.add]

/-- C8 (amended): whenever `take_avg` is called with a positive
`delta_time_ms` and a cursor pointing at an existing record, the window
contains at least that record: the consumed count is at least 1 and the
cursor strictly advances, so the zero-count branch of the division guard
is not taken. -/
theorem take_avg_consumes_cursor_record (recs : List Record) (i : Nat) (delta : Int)
    (hi : i < recs.length) (hδ : 0 < delta) :
    ∃ n bucket, take_avg recs i delta = some (n, bucket) ∧ i + 1 ≤ n ∧
      1 ≤ (windowOf recs i recs[i].timestamp_ms delta).length ∧
      n = i + (windowOf recs i recs[i].timestamp_ms delta).length := by
  obtain ⟨n, b, h1, h2, h3, -⟩ := take_avg_progress recs i delta hi hδ
  exact ⟨n, b, h1, h2, window_nonempty recs i delta hi hδ, h3⟩

/-- Witness for `take_avg_consumes_cursor_record` on a one-record list
with a 300 ms window. -/
theorem take_avg_consumes_cursor_record_witness :
    ∃ n bucket,
      take_avg [{ timestamp_ms := 0, current := F32.num 1, voltage := F32.num 6 }] 0 300 =
        some (n, bucket) ∧ 0 + 1 ≤ n ∧
      1 ≤ (windowOf [{ timestamp_ms := 0, current := F32.num 1, voltage := F32.num 6 }] 0 0 300).length ∧
      n = 0 + (windowOf [{ timestamp_ms := 0, current := F32.num 1, voltage := F32.num 6 }] 0 0 300).length :=
  take_avg_consumes_cursor_record
    [{ timestamp_ms := 0, current := F32.num 1, voltage := F32.num 6 }] 0 300
    (by decide) (by decide)

/-- Truncation of an integer-valued rational is the integer itself. -/
theorem ratTrunc_intCast (n : ℤ) : ratTrunc (n : ℚ) = n := by
  simp [ratTrunc]

/-- The timestamp field `1500000000` (seconds) becomes 1.5e12 ms. -/
theorem msOfTimestampField_1500000000 :
    msOfTimestampField (F32.num 1500000000) = 1500000000000 := by
  simp only [msOfTimestampField]
  rw [show ((1500000000 : ℚ) * 1000) = ((1500000000000 : ℤ) : ℚ) by norm_num,
    ratTrunc_intCast]

/-- C7 (confirmed): every in-bounds numeric `timestamp;current;voltage`
line parses to a Record whose current and voltage are exactly the field
values and whose `timestamp_ms` is the timestamp field multiplied by 1000
and truncated toward zero — so re-serializing the three fields recovers
the original numeric values modulo that truncation. -/
theorem record_new_roundtrip (t c v : ℚ)
    (h1 : 1000000000000 ≤ ratTrunc (t * 1000)) (h2 : ratTrunc (t * 1000) ≤ 2000000000000)
    (h3 : -15 ≤ c) (h4 : c ≤ 15) (h5 : 5 ≤ v) (h6 : v ≤ 16) :
    Record.new [some (F32.num t), some (F32.num c), some (F32.num v)] =
      some { timestamp_ms := ratTrunc (t * 1000),
             current := F32.num c, voltage := F32.num v } := by
  have hA : ¬(ratTrunc (t * 1000) < 1000000000000 ∨ ratTrunc (t * 1000) > 2000000000000) := by
    push_neg
    exact ⟨h1, h2⟩
  have hB : (F32.lt (F32.num c) (F32.num (-15)) || F32.gt (F32.num c) (F32.num 15)) = false := by
    simp only [F32.lt, F32.gt, Bool.or_eq_false_iff, decide_eq_false_iff_not, not_lt]
    exact ⟨h3, h4⟩
  have hC : (F32.lt (F32.num v) (F32.num 5) || F32.gt (F32.num v) (F32.num 16)) = false := by
    simp only [F32.lt, F32.gt, Bool.or_eq_false_iff, decide_eq_false_iff_not, not_lt]
    exact ⟨h5, h6⟩
  simp only [Record.new, msOfTimestampField]
  rw [if_neg hA]
  simp [hB, hC]

/-- Witness for `record_new_roundtrip` on the line
`1500000000;1;12`. -/
theorem record_new_roundtrip_witness :
    Record.new [some (F32.num 1500000000), some (F32.num 1), some (F32.num 12)] =
      some { timestamp_ms := ratTrunc (1500000000 * 1000),
             current := F32.num 1, voltage := F32.num 12 } :=
  record_new_roundtrip 1500000000 1 12
    (by rw [show ((1500000000 : ℚ) * 1000) = ((1500000000000 : ℤ) : ℚ) by norm_num,
      ratTrunc_intCast]; norm_num)
    (by rw [show ((1500000000 : ℚ) * 1000) = ((1500000000000 : ℤ) : ℚ) by norm_num,
      ratTrunc_intCast]; norm_num)
    (by norm_num) (by norm_num) (by norm_num) (by norm_num)

/-- C6 counterexample: a 3-field line whose voltage field parses to NaN —
the model of `1500000000;1;NaN` — is accepted and stored even though no
bound `5.0 ≤ voltage ≤ 16.0` can hold of NaN, which is not a numeric
value at all. -/
theorem record_new_bounds_iff_cex :
    Record.new [some (F32.num 1500000000), some (F32.num 1), some F32.nan] =
      some { timestamp_ms := 1500000000000, current := F32.num 1, voltage := F32.nan } ∧
    (∀ q : ℚ, F32.nan ≠ F32.num q) := by
  constructor
  · simp only [Record.new, msOfTimestampField_1500000000]
    norm_num [F32.lt, F32.gt]
  · intro q h
    cases h

/-- Acceptance of a full 3-field line, phrased with the code's negated
comparisons. -/
theorem record_new_some_iff (t c v : F32) :
    (Record.new [some t, some c, some v]).isSome = true ↔
      (1000000000000 ≤ msOfTimestampField t ∧ msOfTimestampField t ≤ 2000000000000 ∧
       F32.lt c (F32.num (-15)) = false ∧ F32.gt c (F32.num 15) = false ∧
       F32.lt v (F32.num 5) = false ∧ F32.gt v (F32.num 16) = false) := by
  simp only [Record.new]
  split_ifs with hA hB hC
  · simp only [Option.isSome_none, Bool.false_eq_true, false_iff]
    rintro ⟨h1, h2, -⟩
    omega
  · simp only [Option.isSome_none, Bool.false_eq_true, false_iff]
    rintro ⟨-, -, hc1, hc2, -, -⟩
    rcases Bool.or_eq_true_iff.mp hB with hx | hx
    · rw [hc1] at hx; cases hx
    · rw [hc2] at hx; cases hx
  · simp only [Option.isSome_none, Bool.false_eq_true, false_iff]
    rintro ⟨-, -, -, -, hv1, hv2⟩
    rcases Bool.or_eq_true_iff.mp hC with hx | hx
    · rw [hv1] at hx; cases hx
    · rw [hv2] at hx; cases hx
  · simp only [Option.isSome_some, true_iff]
    push_neg at hA
    refine ⟨hA.1, hA.2, ?_, ?_, ?_, ?_⟩
    · exact Bool.eq_false_iff.mpr fun hx => hB (by rw [hx]; simp)
    · exact Bool.eq_false_iff.mpr fun hx => hB (by rw [hx]; simp)
    · exact Bool.eq_false_iff.mpr fun hx => hC (by rw [hx]; simp)
    · exact Bool.eq_false_iff.mpr fun hx => hC (by rw [hx]; simp)

/-- C6 (amended): `Record.new` accepts exactly the field lists with
3 parsed fields whose truncated timestamp lies in
[1e12, 2e12] and on which none of the four negated strict float
comparisons fires; on numeric current/voltage values those comparisons
are exactly the inclusive bounds −15 ≤ current ≤ 15 and
5 ≤ voltage ≤ 16 (boundary cases included below), but a NaN
current/voltage also passes every comparison and is accepted. -/
theorem record_new_acceptance :
    (∀ values : List (Option F32),
      (Record.new values).isSome = true ↔
        ∃ t c v, values = [some t, some c, some v] ∧
          1000000000000 ≤ msOfTimestampField t ∧ msOfTimestampField t ≤ 2000000000000 ∧
          F32.lt c (F32.num (-15)) = false ∧ F32.gt c (F32.num 15) = false ∧
          F32.lt v (F32.num 5) = false ∧ F32.gt v (F32.num 16) = false) ∧
    (∀ q : ℚ,
      (F32.lt (F32.num q) (F32.num (-15)) = false ∧ F32.gt (F32.num q) (F32.num 15) = false) ↔
        -15 ≤ q ∧ q ≤ 15) ∧
    (∀ q : ℚ,
      (F32.lt (F32.num q) (F32.num 5) = false ∧ F32.gt (F32.num q) (F32.num 16) = false) ↔
        5 ≤ q ∧ q ≤ 16) ∧
    (Record.new [some (F32.num 1500000000), some (F32.num 15), some (F32.num 12)]).isSome = true ∧
    (Record.new [some (F32.num 1500000000), some (F32.num (150001 / 10000)), some (F32.num 12)]).isSome = false ∧
    (Record.new [some (F32.num 1500000000), some (F32.num 1), some (F32.num 5)]).isSome = true ∧
    (Record.new [some (F32.num 1500000000), some (F32.num 1), some (F32.num (4999 / 1000))]).isSome = false := by
  refine ⟨?_, ?_, ?_, ?_, ?_, ?_, ?_⟩
  · intro values
    rcases values with _ | ⟨f0, _ | ⟨f1, _ | ⟨f2, _ | ⟨f3, rest⟩⟩⟩⟩
    · simp [Record.new]
    · simp [Record.new]
    · simp [Record.new]
    · rcases f0 with _ | t <;> rcases f1 with _ | c <;> rcases f2 with _ | v
      case some.some.some =>
        rw [record_new_some_iff]
        constructor
        · intro h'
          exact ⟨t, c, v, rfl, h'⟩
        · rintro ⟨t', c', v', heq, hrest⟩
          simp only [List.cons.injEq, Option.some.injEq, and_true] at heq
          obtain ⟨h1, h2, h3⟩ := heq
          subst h1; subst h2; subst h3
          exact hrest
      all_goals simp [Record.new]
    · simp [Record.new]
  · intro q
    simp only [F32.lt, F32.gt, decide_eq_false_iff_not, not_lt]
  · intro q
    simp only [F32.lt, F32.gt, decide_eq_false_iff_not, not_lt]
  · simp only [Record.new, msOfTimestampField_1500000000]
    norm_num [F32.lt, F32.gt]
  · simp only [Record.new, msOfTimestampField_1500000000]
    norm_num [F32.lt, F32.gt]
  · simp only [Record.new, msOfTimestampField_1500000000]
    norm_num [F32.lt, F32.gt]
  · simp only [Record.new, msOfTimestampField_1500000000]
    norm_num [F32.lt, F32.gt]

/-- The guarded quotient computed by `take_avg` is the exact arithmetic
mean whenever every consumed field is numeric (with the empty-window
corner agreeing on 0). -/
theorem mean_of_numeric_window (w : List Record) (f : Record → F32) (qs : List ℚ)
    (h : w.map f = qs.map F32.num) :
    (w.foldl (fun (acc : F32) rec => acc.add (f rec)) (F32.num 0)).div
      (if ((w.length : Int) > 0) then F32.num ((w.length : Int) : ℚ) else F32.num 1) =
      F32.num (qs.sum / (qs.length : ℚ)) := by
  have hlen : w.length = qs.length := by
    have hl := congrArg List.length h
    simpa using hl
  rw [foldl_add_eq_sum f w qs 0 h, zero_add]
  rcases Nat.eq_zero_or_pos w.length with h0 | hpos
  · have hq : qs = [] := List.length_eq_zero.mp (by omega)
    subst hq
    simp [h0, F32.div]
  · rw [if_pos (by exact_mod_cast hpos)]
    simp only [F32.div]
    congr 1
    rw [hlen]
    norm_cast

/-- In a timestamp-sorted list, every record at or beyond the end of the
scanned window lies outside it: its distance from the window start is at
least the window length. -/
theorem window_max (recs : List Record) (i : Nat) (delta : Int) (hi : i < recs.length)
    (hsorted : recs.Pairwise (fun a b => a.timestamp_ms ≤ b.timestamp_ms))
    (j : Nat) (hj : j < recs.length)
    (hge : i + (windowOf recs i recs[i].timestamp_ms delta).length ≤ j) :
    delta ≤ recs[j].timestamp_ms - recs[i].timestamp_ms := by
  have hwin : windowOf recs i recs[i].timestamp_ms delta =
      (recs.drop i).takeWhile
        (fun (rec : Record) => decide (rec.timestamp_ms - recs[i].timestamp_ms < delta)) := rfl
  rw [hwin] at hge
  have hslen : (recs.drop i).length = recs.length - i := List.length_drop i recs
  have hm : ((recs.drop i).takeWhile
      (fun (rec : Record) => decide (rec.timestamp_ms - recs[i].timestamp_ms < delta))).length <
      (recs.drop i).length := by omega
  have hfail := takeWhile_stop
    (fun (rec : Record) => decide (rec.timestamp_ms - recs[i].timestamp_ms < delta))
    (recs.drop i) hm
  have hidx : i + ((recs.drop i).takeWhile
      (fun (rec : Record) => decide (rec.timestamp_ms - recs[i].timestamp_ms < delta))).length <
      recs.length := by omega
  have hsm : (recs.drop i).get ⟨((recs.drop i).takeWhile
        (fun (rec : Record) => decide (rec.timestamp_ms - recs[i].timestamp_ms < delta))).length, hm⟩ =
      recs.get ⟨i + ((recs.drop i).takeWhile
        (fun (rec : Record) => decide (rec.timestamp_ms - recs[i].timestamp_ms < delta))).length, hidx⟩ := by
    rw [List.get_eq_getElem, List.get_eq_getElem, List.getElem_drop]
  rw [hsm] at hfail
  simp only [decide_eq_false_iff_not, not_lt] at hfail
  have hfail2 : delta ≤ recs[i + ((recs.drop i).takeWhile
      (fun (rec : Record) => decide (rec.timestamp_ms - recs[i].timestamp_ms < delta))).length].timestamp_ms -
      recs[i].timestamp_ms := hfail
  rcases eq_or_lt_of_le hge with heq | hlt
  · subst heq
    exact hfail2
  · have hmono := List.pairwise_iff_getElem.mp hsorted
      (i + ((recs.drop i).takeWhile
        (fun (rec : Record) => decide (rec.timestamp_ms - recs[i].timestamp_ms < delta))).length)
      j (by omega) hj hlt
    omega

/-- The spec's windowed-averaging example: sorted records at 0, 100, 250
and 400 ms. -/
def exampleRecords : List Record :=
  [{ timestamp_ms := 0, current := F32.num 1, voltage := F32.num 6 },
   { timestamp_ms := 100, current := F32.num 2, voltage := F32.num 7 },
   { timestamp_ms := 250, current := F32.num 3, voltage := F32.num 8 },
   { timestamp_ms := 400, current := F32.num 4, voltage := F32.num 9 }]

/-- C2 (confirmed): on a timestamp-sorted list with the cursor on an
existing record, `take_avg` emits a bucket stamped with the cursor
record's timestamp `t0`, consumes exactly the maximal run of consecutive
records with `timestamp - t0 < delta` (everything consumed is inside the
window, everything at or past the new cursor is outside it), and — when
the consumed fields are numeric — the bucket's current and voltage are
the exact arithmetic means of the consumed values. In particular, for
records at 0, 100, 250, 400 ms and a 300 ms window the first bucket
averages the three records at 0, 100, 250 and the next window starts at
the record with timestamp 400. -/
theorem take_avg_window_characterization :
    (∀ (recs : List Record) (i : Nat) (delta : Int) (hi : i < recs.length),
      recs.Pairwise (fun a b => a.timestamp_ms ≤ b.timestamp_ms) →
      ∃ bucket,
        take_avg recs i delta =
          some (i + (windowOf recs i recs[i].timestamp_ms delta).length, bucket) ∧
        bucket.timestamp_ms = recs[i].timestamp_ms ∧
        (∀ rec ∈ windowOf recs i recs[i].timestamp_ms delta,
          rec.timestamp_ms - recs[i].timestamp_ms < delta) ∧
        (∀ j : Nat, ∀ hj : j < recs.length,
          i + (windowOf recs i recs[i].timestamp_ms delta).length ≤ j →
          delta ≤ recs[j].timestamp_ms - recs[i].timestamp_ms) ∧
        (∀ qs : List ℚ,
          (windowOf recs i recs[i].timestamp_ms delta).map Record.current = qs.map F32.num →
          bucket.current = F32.num (qs.sum / (qs.length : ℚ))) ∧
        (∀ qs : List ℚ,
          (windowOf recs i recs[i].timestamp_ms delta).map Record.voltage = qs.map F32.num →
          bucket.voltage = F32.num (qs.sum / (qs.length : ℚ)))) ∧
    take_avg exampleRecords 0 300 =
      some (3, { timestamp_ms := 0, current := F32.num 2, voltage := F32.num 7 }) ∧
    exampleRecords[3].timestamp_ms = 400 := by
  refine ⟨?_, ?_, rfl⟩
  · intro recs i delta hi hsorted
    refine ⟨_, take_avg_spec recs i delta hi, rfl, ?_, ?_, ?_, ?_⟩
    · intro rec hrec
      have hp := List.mem_takeWhile_imp hrec
      simpa using hp
    · exact window_max recs i delta hi hsorted
    · intro qs hqs
      exact mean_of_numeric_window _ Record.current qs hqs
    · intro qs hqs
      exact mean_of_numeric_window _ Record.voltage qs hqs
  · norm_num [take_avg, windowOf, F32.add, F32.div, exampleRecords]

/-- Witness for `take_avg_window_characterization` on the spec's own
example at cursor 0 with a 300 ms window. -/
theorem take_avg_window_characterization_witness :
    ∃ bucket,
      take_avg exampleRecords 0 300 =
        some (0 + (windowOf exampleRecords 0 0 300).length, bucket) ∧
      bucket.timestamp_ms = 0 ∧
      (∀ rec ∈ windowOf exampleRecords 0 0 300, rec.timestamp_ms - 0 < 300) ∧
      (∀ j : Nat, ∀ hj : j < exampleRecords.length,
        0 + (windowOf exampleRecords 0 0 300).length ≤ j →
        300 ≤ exampleRecords[j].timestamp_ms - 0) ∧
      (∀ qs : List ℚ,
        (windowOf exampleRecords 0 0 300).map Record.current = qs.map F32.num →
        bucket.current = F32.num (qs.sum / (qs.length : ℚ))) ∧
      (∀ qs : List ℚ,
        (windowOf exampleRecords 0 0 300).map Record.voltage = qs.map F32.num →
        bucket.voltage = F32.num (qs.sum / (qs.length : ℚ))) :=
  take_avg_window_characterization.1 exampleRecords 0 300 (by decide) (by decide)

/-- `takeWhile` over a replicated element that fails the predicate is
empty. -/
theorem takeWhile_replicate_neg {α : Type _} (p : α → Bool) (a : α) (n : Nat)
    (hpa : p a = false) : (List.replicate n a).takeWhile p = [] := by
  induction n with
  | zero => rfl
  | succ n ih =>
    rw [List.replicate_succ, List.takeWhile_cons, hpa]
    simp

/-- 21 sorted records: one at 0 ms, twenty at 1000000 ms. After the
first 300000 ms window consumes the record at 0, exactly 20 records
remain. -/
def guardCexRecords : List Record :=
  { timestamp_ms := 0, current := F32.num 1, voltage := F32.num 6 } ::
    List.replicate 20 { timestamp_ms := 1000000, current := F32.num 2, voltage := F32.num 7 }

/-- The first window over `guardCexRecords` consumes exactly the record
at 0 ms and averages it alone. -/
theorem guardCex_take_avg :
    take_avg guardCexRecords 0 300000 =
      some (1, { timestamp_ms := 0, current := F32.num 1, voltage := F32.num 6 }) := by
  simp [take_avg, windowOf, guardCexRecords, takeWhile_replicate_neg, F32.add, F32.div]

/-- C3 counterexample: on `guardCexRecords` (21 records) with a 300000 ms
window, the first window closes with exactly 20 records remaining
unconsumed, yet the loop emits no further bucket: the whole run yields a
single bucket, not the two or more the claim requires for a remainder of
at least 20. -/
theorem avg_loop_tail_guard_cex :
    guardCexRecords.length = 21 ∧
    take_avg guardCexRecords 0 300000 =
      some (1, { timestamp_ms := 0, current := F32.num 1, voltage := F32.num 6 }) ∧
    runAvg guardCexRecords 300000 22 0 [] =
      some [{ timestamp_ms := 0, current := F32.num 1, voltage := F32.num 6 }] := by
  refine ⟨by simp [guardCexRecords], guardCex_take_avg, ?_⟩
  simp only [runAvg, guardCex_take_avg]
  rw [if_pos (by simp [guardCexRecords])]
  rfl

/-- C3 (amended): after a window closes at cursor `n`, the averaging loop
stops — emitting nothing for the tail — iff at most 20 records remain:
when `recs.length ≤ n + 20` the run ends with just the bucket of that
window appended, and when at least 21 records remain (`n + 20 <
recs.length`, positive window, enough fuel) the loop goes on to emit at
least one further bucket. -/
theorem avg_loop_tail_guard_amended (recs : List Record) (delta : Int)
    (next n : Nat) (bucket : Record) (fuel : Nat) (acc : List Record)
    (hta : take_avg recs next delta = some (n, bucket)) :
    (recs.length ≤ n + 20 →
      runAvg recs delta (fuel + 1) next acc = some (acc ++ [bucket])) ∧
    (n + 20 < recs.length → 0 < delta → recs.length - n ≤ fuel →
      ∃ out, runAvg recs delta (fuel + 1) next acc = some out ∧
        acc.length + 2 ≤ out.length) := by
  constructor
  · intro hstop
    simp only [runAvg, hta]
    rw [if_pos (by omega)]
  · intro hcont hδ hfuel
    obtain ⟨out, hrun, hlen⟩ :=
      runAvg_total recs delta hδ fuel n (acc ++ [bucket]) (by omega) hfuel
    refine ⟨out, ?_, by simp at hlen; omega⟩
    simp only [runAvg, hta]
    rw [if_neg (by omega)]
    exact hrun

/-- Witness for `avg_loop_tail_guard_amended`: on `guardCexRecords` the
first window leaves exactly 20 records, so the stop branch fires. -/
theorem avg_loop_tail_guard_amended_witness :
    runAvg guardCexRecords 300000 (20 + 1) 0 [] =
      some ([] ++ [{ timestamp_ms := 0, current := F32.num 1, voltage := F32.num 6 }]) :=
  (avg_loop_tail_guard_amended guardCexRecords 300000 0 1
      { timestamp_ms := 0, current := F32.num 1, voltage := F32.num 6 } 20 []
      guardCex_take_avg).1
    (by simp [guardCexRecords])

/-- The plotting loop does nothing on an empty record list. -/
theorem daySegmentsGo_nil (offset : Int) (fuel : Nat) :
    daySegmentsGo offset fuel [] = [] := by
  cases fuel <;> rfl

/-- The segments produced by the plotting loop concatenate back to the
input: no record is dropped, duplicated or reordered. -/
theorem daySegmentsGo_join (offset : Int) :
    ∀ (fuel : Nat) (recs : List Record), recs.length ≤ fuel →
      (daySegmentsGo offset fuel recs).flatten = recs := by
  intro fuel
  induction fuel with
  | zero =>
    intro recs h
    rw [List.length_eq_zero.mp (show recs.length = 0 by omega)]
    rfl
  | succ fuel ih =>
    intro recs h
    cases recs with
    | nil => rfl
    | cons r rs =>
      simp only [daySegmentsGo, List.flatten_cons]
      have hrest : ((r :: rs).dropWhile
          (fun rec => decide (dayNum offset rec.timestamp_ms =
            dayNum offset r.timestamp_ms))).length ≤ rs.length := by
        rw [List.dropWhile_cons, if_pos (by simp)]
        exact (List.dropWhile_sublist _).length_le
      have hle : ((r :: rs).dropWhile
          (fun rec => decide (dayNum offset rec.timestamp_ms =
            dayNum offset r.timestamp_ms))).length ≤ fuel := by
        simp only [List.length_cons] at h
        omega
      rw [ih _ hle]
      exact List.takeWhile_append_dropWhile _ _

/-- Every segment the plotting loop emits is nonempty and all its
records share one day-of-month value. -/
theorem daySegmentsGo_same_day (offset : Int) :
    ∀ (fuel : Nat) (recs : List Record), recs.length ≤ fuel →
      ∀ seg ∈ daySegmentsGo offset fuel recs, seg ≠ [] ∧
        ∃ d : Int, ∀ r ∈ seg, dayNum offset r.timestamp_ms = d := by
  intro fuel
  induction fuel with
  | zero =>
    intro recs h
    rw [List.length_eq_zero.mp (show recs.length = 0 by omega)]
    intro seg hseg
    cases hseg
  | succ fuel ih =>
    intro recs h
    cases recs with
    | nil => intro seg hseg; cases hseg
    | cons r rs =>
      simp only [daySegmentsGo]
      intro seg hseg
      rcases List.mem_cons.mp hseg with heq | hmem
      · subst heq
        rw [List.takeWhile_cons, if_pos (by simp)]
        refine ⟨List.cons_ne_nil _ _, dayNum offset r.timestamp_ms, ?_⟩
        intro x hx
        rcases List.mem_cons.mp hx with hx0 | hxs
        · rw [hx0]
        · have hp := List.mem_takeWhile_imp hxs
          simpa using hp
      · have hrest : ((r :: rs).dropWhile
            (fun rec => decide (dayNum offset rec.timestamp_ms =
              dayNum offset r.timestamp_ms))).length ≤ rs.length := by
          rw [List.dropWhile_cons, if_pos (by simp)]
          exact (List.dropWhile_sublist _).length_le
        have hle : ((r :: rs).dropWhile
            (fun rec => decide (dayNum offset rec.timestamp_ms =
              dayNum offset r.timestamp_ms))).length ≤ fuel := by
          simp only [List.length_cons] at h
          omega
        exact ih _ hle seg hmem

/-- Every record of the first segment the loop produces on `r :: rs`
shares `r`'s day-of-month. -/
theorem daySegmentsGo_head_day (offset : Int) (fuel : Nat) (r : Record) (rs : List Record) :
    ∀ seg ∈ (daySegmentsGo offset fuel (r :: rs)).head?, ∀ y ∈ seg,
      dayNum offset y.timestamp_ms = dayNum offset r.timestamp_ms := by
  cases fuel with
  | zero => intro seg hseg; cases hseg
  | succ fuel =>
    intro seg hseg y hy
    simp only [daySegmentsGo, List.head?_cons, Option.mem_def, Option.some.injEq] at hseg
    subst hseg
    rw [List.takeWhile_cons, if_pos (by simp)] at hy
    rcases List.mem_cons.mp hy with hy0 | hys
    · rw [hy0]
    · have hp := List.mem_takeWhile_imp hys
      simpa using hp

/-- The first element surviving a `dropWhile` fails the predicate. -/
theorem dropWhile_eq_cons_p_false {α : Type _} (p : α → Bool) (l : List α) (a : α)
    (l' : List α) (h : l.dropWhile p = a :: l') : p a = false := by
  induction l with
  | nil => cases h
  | cons x xs ih =>
    rw [List.dropWhile_cons] at h
    by_cases hx : p x = true
    · rw [if_pos hx] at h
      exact ih h
    · rw [if_neg hx] at h
      injection h with h1 h2
      subst h1
      exact Bool.eq_false_iff.mpr hx

/-- Adjacent segments never share a day-of-month value: the loop closes a
segment exactly when the scanned day changes. -/
theorem daySegmentsGo_chain (offset : Int) :
    ∀ (fuel : Nat) (recs : List Record), recs.length ≤ fuel →
      List.Chain' (fun s t => ∀ x ∈ s, ∀ y ∈ t,
        dayNum offset x.timestamp_ms ≠ dayNum offset y.timestamp_ms)
        (daySegmentsGo offset fuel recs) := by
  intro fuel
  induction fuel with
  | zero =>
    intro recs h
    rw [List.length_eq_zero.mp (show recs.length = 0 by omega)]
    exact List.chain'_nil
  | succ fuel ih =>
    intro recs h
    cases recs with
    | nil => exact List.chain'_nil
    | cons r rs =>
      simp only [daySegmentsGo]
      rw [List.chain'_cons']
      have hrest : ((r :: rs).dropWhile
          (fun rec => decide (dayNum offset rec.timestamp_ms =
            dayNum offset r.timestamp_ms))).length ≤ rs.length := by
        rw [List.dropWhile_cons, if_pos (by simp)]
        exact (List.dropWhile_sublist _).length_le
      constructor
      · intro t ht x hx y hy
        rcases hdw : (r :: rs).dropWhile
            (fun rec => decide (dayNum offset rec.timestamp_ms =
              dayNum offset r.timestamp_ms)) with _ | ⟨r', rs'⟩
        · rw [hdw, daySegmentsGo_nil] at ht
          cases ht
        · rw [hdw] at ht
          have hyday := daySegmentsGo_head_day offset fuel r' rs' t ht y hy
          have hxday : dayNum offset x.timestamp_ms = dayNum offset r.timestamp_ms := by
            rw [List.takeWhile_cons, if_pos (by simp)] at hx
            rcases List.mem_cons.mp hx with hx0 | hxs
            · rw [hx0]
            · have hp := List.mem_takeWhile_imp hxs
              simpa using hp
          have hfail := dropWhile_eq_cons_p_false _ _ _ _ hdw
          simp only [decide_eq_false_iff_not] at hfail
          rw [hxday, hyday]
          exact fun heq => hfail heq.symm
      · have hle : ((r :: rs).dropWhile
            (fun rec => decide (dayNum offset rec.timestamp_ms =
              dayNum offset r.timestamp_ms))).length ≤ fuel := by
          simp only [List.length_cons] at h
          omega
        exact ih _ hle

/-- Two averaged records exactly one month apart: 2020-01-15 12:00 UTC
and 2020-02-15 12:00 UTC. Different calendar days, same day-of-month. -/
def monthApartRecords : List Record :=
  [{ timestamp_ms := 1579089600000, current := F32.num 1, voltage := F32.num 6 },
   { timestamp_ms := 1581768000000, current := F32.num 2, voltage := F32.num 7 }]

/-- Two averaged records on consecutive UTC calendar days:
2020-01-15 23:00 UTC and 2020-01-16 01:00 UTC. -/
def twoDayRecords : List Record :=
  [{ timestamp_ms := 1579129200000, current := F32.num 1, voltage := F32.num 6 },
   { timestamp_ms := 1579136400000, current := F32.num 2, voltage := F32.num 7 }]

/-- C5 counterexample: the plotting loop compares only `day()` — the day
of month — so the records of 2020-01-15 and 2020-02-15 (both day 15, 31
days apart, certainly different calendar days) land in one single
segment, not the two segments a calendar-day grouping requires. -/
theorem day_segments_calendar_day_cex :
    dayNum 0 1579089600000 = 15 ∧
    dayNum 0 1581768000000 = 15 ∧
    (1581768000000 - 1579089600000 : Int) = 31 * 86400000 ∧
    daySegments 0 monthApartRecords = [monthApartRecords] := by
  refine ⟨by decide, by decide, by decide, by decide⟩

/-- C5 (amended): the plotting loop groups consecutive records by equal
day-of-month under the fixed offset — not by full calendar date. The
segments concatenate back to the input in order, every segment is
nonempty and all its records share one day-of-month value, and adjacent
segments never share that value; hence consecutive records share a
segment iff they have equal day-of-month. In particular records spanning
two consecutive UTC calendar days (whose day-of-month values differ)
yield exactly 2 segments. -/
theorem day_segments_grouped_by_day_of_month :
    (∀ (offset : Int) (recs : List Record),
      (daySegments offset recs).flatten = recs ∧
      (∀ seg ∈ daySegments offset recs, seg ≠ [] ∧
        ∃ d : Int, ∀ r ∈ seg, dayNum offset r.timestamp_ms = d) ∧
      List.Chain' (fun s t => ∀ x ∈ s, ∀ y ∈ t,
        dayNum offset x.timestamp_ms ≠ dayNum offset y.timestamp_ms)
        (daySegments offset recs)) ∧
    daySegments 0 twoDayRecords =
      [[{ timestamp_ms := 1579129200000, current := F32.num 1, voltage := F32.num 6 }],
       [{ timestamp_ms := 1579136400000, current := F32.num 2, voltage := F32.num 7 }]] ∧
    dayNum 0 1579129200000 = 15 ∧
    dayNum 0 1579136400000 = 16 := by
  refine ⟨?_, by decide, by decide, by decide⟩
  intro offset recs
  exact ⟨daySegmentsGo_join offset recs.length recs (le_refl _),
    daySegmentsGo_same_day offset recs.length recs (le_refl _),
    daySegmentsGo_chain offset recs.length recs (le_refl _)⟩

/-- Replacing one worker's state exchanges its load inside the total
pending load. -/
theorem pendingLoad_set (ws : List WorkerState) :
    ∀ (i : Nat) (w w' : WorkerState), ws[i]? = some w →
      pendingLoad (ws.set i w') + w.load = pendingLoad ws + w'.load := by
  induction ws with
  | nil => intro i w w' h; simp at h
  | cons a as ih =>
    intro i w w' h
    cases i with
    | zero =>
      simp only [List.getElem?_cons_zero, Option.some.injEq] at h
      subst h
      simp only [List.set_cons_zero, pendingLoad, List.map_cons, List.sum_cons]
      abel
    | succ i =>
      simp only [List.getElem?_cons_succ] at h
      have ih' := ih i w w' h
      simp only [pendingLoad, List.map_cons, List.sum_cons] at ih' ⊢
      rw [List.set_cons_succ, List.map_cons, List.sum_cons, add_assoc, add_assoc, ih']

/-- A pool whose workers have all terminated holds no pending records. -/
theorem pendingLoad_eq_zero (ws : List WorkerState)
    (h : ∀ s ∈ ws, s = WorkerState.done) : pendingLoad ws = 0 := by
  unfold pendingLoad
  apply List.sum_eq_zero
  intro x hx
  obtain ⟨s, hs, rfl⟩ := List.mem_map.mp hx
  rw [h s hs]
  rfl

/-- The pool invariant: the dispatcher still owns the original file list,
the worker count never changes, the records accumulated so far plus the
batches workers hold privately plus the parses of the files not yet
handed out always equal the parses of all files, and a worker only
terminates once the cursor is past the file list. -/
def PoolInv (P : String → List Record) (files : List String) (w : Nat)
    (c : PoolConfig) : Prop :=
  c.disp.files = files ∧
  c.workers.length = w ∧
  ((c.disp.recs : Multiset Record) + pendingLoad c.workers +
      (((files.drop c.disp.job_index).map P).flatten : List Record) =
    (((files.map P).flatten : List Record) : Multiset Record)) ∧
  (WorkerState.done ∈ c.workers → files.length ≤ c.disp.job_index)

/-- The invariant holds when the pool starts. -/
theorem poolInv_init (P : String → List Record) (files : List String) (w : Nat) :
    PoolInv P files w (initPool files w) := by
  refine ⟨rfl, List.length_replicate w _, ?_, ?_⟩
  · simp [initPool, pendingLoad, WorkerState.load, List.map_replicate]
  · intro hd
    have := List.eq_of_mem_replicate hd
    exact absurd this (by simp)

/-- Every atomic worker action preserves the pool invariant. -/
theorem poolInv_step (P : String → List Record) (files : List String) (w : Nat)
    (c c' : PoolConfig) (hstep : WorkerStep P c c') (hinv : PoolInv P files w c) :
    PoolInv P files w c' := by
  obtain ⟨hfiles, hwlen, hload, hdone⟩ := hinv
  cases hstep with
  | take i file d' hw' hj =>
    obtain ⟨hlt, hfile, hd'⟩ := get_next_job_some hj
    subst hd'
    refine ⟨hfiles, by rw [List.length_set]; exact hwlen, ?_, ?_⟩
    · have hset := pendingLoad_set c.workers i WorkerState.idle
        (WorkerState.pending (P file)) hw'
      simp only [WorkerState.load, add_zero] at hset
      have hdrop : files.drop c.disp.job_index =
          files.get ⟨c.disp.job_index, hfiles ▸ hlt⟩ :: files.drop (c.disp.job_index + 1) := by
        exact List.drop_eq_getElem_cons (hfiles ▸ hlt)
      have hfile' : file = files.get ⟨c.disp.job_index, hfiles ▸ hlt⟩ := by
        subst hfiles
        exact hfile
      rw [hdrop, List.map_cons, List.flatten_cons] at hload
      rw [hset, hfile']
      rw [← Multiset.coe_add] at hload
      calc (c.disp.recs : Multiset Record) +
            (pendingLoad c.workers + ↑(P (files.get ⟨c.disp.job_index, hfiles ▸ hlt⟩))) +
            (((files.drop (c.disp.job_index + 1)).map P).flatten : List Record)
          = (c.disp.recs : Multiset Record) + pendingLoad c.workers +
            ((↑(P (files.get ⟨c.disp.job_index, hfiles ▸ hlt⟩)) : Multiset Record) +
              (((files.drop (c.disp.job_index + 1)).map P).flatten : List Record)) := by
            abel
        _ = (((files.map P).flatten : List Record) : Multiset Record) := hload
    · intro hd
      rcases List.mem_or_eq_of_mem_set hd with hin | heq
      · have := hdone hin
        show files.length ≤ c.disp.job_index + 1
        omega
      · cases heq
  | finish i d' hw' hj =>
    obtain ⟨hge, hd'⟩ := get_next_job_none hj
    subst hd'
    refine ⟨hfiles, by rw [List.length_set]; exact hwlen, ?_, ?_⟩
    · have hset := pendingLoad_set c.workers i WorkerState.idle WorkerState.done hw'
      simp only [WorkerState.load, add_zero] at hset
      rw [hset]
      exact hload
    · intro _
      rw [← hfiles]
      exact hge
  | submit i batch hw' =>
    refine ⟨hfiles, by rw [List.length_set]; exact hwlen, ?_, ?_⟩
    · have hset := pendingLoad_set c.workers i (WorkerState.pending batch)
        WorkerState.idle hw'
      simp only [WorkerState.load, add_zero] at hset
      simp only [Dispatcher.append_data]
      rw [← Multiset.coe_add]
      calc ((c.disp.recs : Multiset Record) + (batch : Multiset Record)) +
            pendingLoad (c.workers.set i WorkerState.idle) +
            (((files.drop c.disp.job_index).map P).flatten : List Record)
          = (c.disp.recs : Multiset Record) +
            (pendingLoad (c.workers.set i WorkerState.idle) + (batch : Multiset Record)) +
            (((files.drop c.disp.job_index).map P).flatten : List Record) := by abel
        _ = (c.disp.recs : Multiset Record) + pendingLoad c.workers +
            (((files.drop c.disp.job_index).map P).flatten : List Record) := by rw [hset]
        _ = (((files.map P).flatten : List Record) : Multiset Record) := hload
    · intro hd
      rcases List.mem_or_eq_of_mem_set hd with hin | heq
      · exact hdone hin
      · cases heq

/-- The invariant holds in every reachable pool configuration. -/
theorem poolInv_reachable (P : String → List Record) (files : List String) (w : Nat)
    (c : PoolConfig) (h : Relation.ReflTransGen (WorkerStep P) (initPool files w) c) :
    PoolInv P files w c := by
  induction h with
  | refl => exact poolInv_init P files w
  | tail _ hstep ih => exact poolInv_step P files w _ _ hstep ih

/-- C9 (confirmed): for a fixed file set and parse function, any
interleaved run of any positive number of workers that ends with every
worker terminated leaves exactly the multiset of all files' parsed
records in the shared buffer — the result is independent of the worker
count and of the interleaving. -/
theorem worker_count_independent_accumulation (P : String → List Record)
    (files : List String) (w : Nat) (c : PoolConfig) (hw : 0 < w)
    (hreach : Relation.ReflTransGen (WorkerStep P) (initPool files w) c)
    (hdone : ∀ s ∈ c.workers, s = WorkerState.done) :
    (c.disp.recs : Multiset Record) =
      (((files.map P).flatten : List Record) : Multiset Record) := by
  obtain ⟨hfiles, hwlen, hload, hpast⟩ := poolInv_reachable P files w c hreach
  have hd : WorkerState.done ∈ c.workers := by
    cases hcw : c.workers with
    | nil => rw [hcw] at hwlen; simp at hwlen; omega
    | cons a as =>
      have ha : a ∈ c.workers := by rw [hcw]; exact List.mem_cons_self a as
      have hda := hdone a ha
      rw [← hda]
      exact List.mem_cons_self a as
  have hge := hpast hd
  rw [List.drop_eq_nil_of_le hge] at hload
  rw [pendingLoad_eq_zero c.workers hdone] at hload
  simpa using hload

/-- Witness for `worker_count_independent_accumulation`: one worker, one
file, explicit trace take → submit → finish. -/
theorem worker_count_independent_accumulation_witness :
    ((Dispatcher.mk ["f"] 1
        [{ timestamp_ms := 0, current := F32.num 1, voltage := F32.num 6 }]).recs :
      Multiset Record) =
      (((["f"].map (fun _ =>
          [{ timestamp_ms := 0, current := F32.num 1, voltage := F32.num 6 }])).flatten :
        List Record) : Multiset Record) := by
  refine worker_count_independent_accumulation
    (fun _ => [{ timestamp_ms := 0, current := F32.num 1, voltage := F32.num 6 }])
    ["f"] 1
    ⟨Dispatcher.mk ["f"] 1 [{ timestamp_ms := 0, current := F32.num 1, voltage := F32.num 6 }],
      [WorkerState.done]⟩
    Nat.one_pos ?_ ?_
  · have s1 : WorkerStep
        (fun _ => [{ timestamp_ms := 0, current := F32.num 1, voltage := F32.num 6 }])
        (initPool ["f"] 1)
        ⟨Dispatcher.mk ["f"] 1 [],
          [WorkerState.pending
            [{ timestamp_ms := 0, current := F32.num 1, voltage := F32.num 6 }]]⟩ :=
      WorkerStep.take (initPool ["f"] 1) 0 "f" (Dispatcher.mk ["f"] 1 []) rfl rfl
    have s2 : WorkerStep
        (fun _ => [{ timestamp_ms := 0, current := F32.num 1, voltage := F32.num 6 }])
        ⟨Dispatcher.mk ["f"] 1 [],
          [WorkerState.pending
            [{ timestamp_ms := 0, current := F32.num 1, voltage := F32.num 6 }]]⟩
        ⟨Dispatcher.mk ["f"] 1 [{ timestamp_ms := 0, current := F32.num 1, voltage := F32.num 6 }],
          [WorkerState.idle]⟩ :=
      WorkerStep.submit
        ⟨Dispatcher.mk ["f"] 1 [],
          [WorkerState.pending
            [{ timestamp_ms := 0, current := F32.num 1, voltage := F32.num 6 }]]⟩
        0 [{ timestamp_ms := 0, current := F32.num 1, voltage := F32.num 6 }] rfl
    have s3 : WorkerStep
        (fun _ => [{ timestamp_ms := 0, current := F32.num 1, voltage := F32.num 6 }])
        ⟨Dispatcher.mk ["f"] 1 [{ timestamp_ms := 0, current := F32.num 1, voltage := F32.num 6 }],
          [WorkerState.idle]⟩
        ⟨Dispatcher.mk ["f"] 1 [{ timestamp_ms := 0, current := F32.num 1, voltage := F32.num 6 }],
          [WorkerState.done]⟩ :=
      WorkerStep.finish
        ⟨Dispatcher.mk ["f"] 1 [{ timestamp_ms := 0, current := F32.num 1, voltage := F32.num 6 }],
          [WorkerState.idle]⟩
        0 (Dispatcher.mk ["f"] 1 [{ timestamp_ms := 0, current := F32.num 1, voltage := F32.num 6 }])
        rfl rfl
    exact Relation.ReflTransGen.tail
      (Relation.ReflTransGen.tail (Relation.ReflTransGen.tail Relation.ReflTransGen.refl s1) s2) s3
  · intro s hs
    rw [List.mem_singleton] at hs
    exact hs
